import Mathlib

/-!
Verification of the PyCycle per-feature fitting and classification pipeline
(`PyCycle.py`) against its natural-language specification.

Modelling conventions, fixed for the whole file:

* Numeric values are modelled as exact rationals extended with the two special
  values the script actually manipulates: `nan` (the result of an undefined
  sample variance and the marker `np.nan`) and `inf` (the SSE assigned to a
  failed fit).  Every comparison, truthiness test and dictionary lookup the
  claims depend on is decided by sign and order only, never by rounding, so
  the exact-rational model decides them the same way IEEE doubles do.
  Python/NumPy semantics of the special values are reproduced faithfully:
  every ordered comparison with `nan` is false, `bool(nan)` is true,
  `nan != 0` is true, `1/nan` is `nan`, `nan + x` is `nan`.
* A data column is modelled post-parsing as its timepoint/replicate pair
  (the script extracts them with regexes from names such as `ZT4_C2`;
  malformed names abort the run and are outside every claim).
* `math.pi` is modelled by the exact rational value of the IEEE-754 double
  `math.pi`, namely `884279719003555 / 2^48`.
* `scipy.optimize.curve_fit`, `scipy.stats.kendalltau` and
  `statsmodels.multipletests` are external solvers/statistics; they enter the
  model as oracle parameters (an arbitrary outcome per call), while all the
  surrounding control flow of `PyCycle.py` — the weight construction, the
  `try/except` fallbacks, the SSE computation, the `np.argmin` selection, the
  significance gate and the result-table assembly — is embedded from the
  source.  `pandas.sort_values` is modelled relationally: any permutation of
  the rows that is ordered by the key (NaN keys last, as pandas places them).
-/

/-- A Python/NumPy floating-point value as the script uses it: an exact
rational, or `nan`, or positive infinity. -/
inductive PyFloat where
  | fin (q : ℚ)
  | nan
  | inf
deriving DecidableEq

/-- Python `x < y` on floats: any comparison involving `nan` is false;
`inf` is above every finite value. -/
def pyLt : PyFloat → PyFloat → Bool
  | .fin a, .fin b => decide (a < b)
  | .fin _, .inf => true
  | _, _ => false

/-- Python `x <= y` on floats. -/
def pyLe : PyFloat → PyFloat → Bool
  | .fin a, .fin b => decide (a ≤ b)
  | .fin _, .inf => true
  | .inf, .inf => true
  | _, _ => false

/-- Python truthiness of a float, which coincides with `x != 0`:
`bool(0.0)` is false, while `bool(nan)` and `bool(inf)` are true. -/
def pyTruthy : PyFloat → Bool
  | .fin q => decide (q ≠ 0)
  | _ => true

/-- Python `1/x` on a float as the script can reach it: `1/nan = nan`,
`1/inf = 0`, and NumPy yields `inf` on a zero divisor. -/
def pyRecip : PyFloat → PyFloat
  | .fin q => if q = 0 then .inf else .fin q⁻¹
  | .nan => .nan
  | .inf => .fin 0

/-- Python `x + y` on floats (no negative infinity arises in the script). -/
def pyAdd : PyFloat → PyFloat → PyFloat
  | .nan, _ => .nan
  | _, .nan => .nan
  | .inf, _ => .inf
  | _, .inf => .inf
  | .fin a, .fin b => .fin (a + b)

/-- One data column of a feature row, after the name parsing of
`PyCycle.py` lines 95-96 and 116: the raw integer timepoint (the digits
after `ZT`) and the replicate number (the digits after `C`). -/
structure PCol where
  zt : ℕ
  rep : ℕ
deriving DecidableEq

/-- A feature row: the parsed columns with their measured amplitudes. -/
abbrev Row := List (PCol × ℚ)

/-- The IEEE-754 double closest to π, as an exact rational: `math.pi`. -/
def mathPi : ℚ := 884279719003555 / 281474976710656

/-- Line 117: `timepoints = timepoints / 24 * (2 * math.pi)` — the raw
timepoint rescaled to radians assuming a 24-hour period. -/
def tScale (zt : ℕ) : ℚ := (zt : ℚ) / 24 * (2 * mathPi)

/-- Insert a value into an ascending duplicate-free list of naturals. -/
def insOrd (n : ℕ) : List ℕ → List ℕ
  | [] => [n]
  | m :: ms => if n < m then n :: m :: ms else if n = m then m :: ms else m :: insOrd n ms

/-- Model of `np.unique`: the sorted distinct values of a list of naturals. -/
def npUnique (l : List ℕ) : List ℕ := l.foldl (fun acc n => insOrd n acc) []

/-- The measurements of a row belonging to one raw timepoint, in column
order (line 102: `zt_columns = data.index[zt_times == zt]`). -/
def groupValues (zt : ℕ) : Row → List ℚ
  | [] => []
  | c :: cs => if c.1.zt = zt then c.2 :: groupValues zt cs else groupValues zt cs

/-- Model of `pandas.Series.var(ddof=1)`: the unbiased sample variance, which is
`NaN` when fewer than two values are present (0/0). -/
def sampleVariance (xs : List ℚ) : PyFloat :=
  if xs.length < 2 then .nan
  else
    .fin (((xs.map (fun x => (x - xs.sum / xs.length) ^ 2)).sum) / (xs.length - 1))

/-- Lines 93-106, `calculate_variances`: group the columns by raw timepoint
(`np.unique` order), take the `ddof=1` variance of each group, and store
`zt_var if zt_var else 0`.  Note the guard is Python truthiness: it replaces
a zero variance by `0` (a no-op) but keeps `NaN`, because `bool(nan)` is
true — the comment `# Replace NaN variances with 0` notwithstanding. -/
def calculate_variances (row : Row) : List (ℕ × PyFloat) :=
  (npUnique (row.map (·.1.zt))).map (fun zt =>
    let v := sampleVariance (groupValues zt row)
    (zt, if pyTruthy v then v else .fin 0))

/-- Python `tp in variances` followed by `variances[tp]`: look a key up by
numeric equality (`0.0 == 0` holds, so a float probe can find an integer
key). -/
def varLookup : List (ℕ × PyFloat) → ℚ → Option PyFloat
  | [], _ => none
  | p :: ps, tp => if (p.1 : ℚ) = tp then some p.2 else varLookup ps tp

/-- Line 120: `weights = np.array([1 / variances[tp] if tp in variances and
variances[tp] != 0 else 0 for tp in timepoints]) + 0.000001`.  The probe
`tp` is the RESCALED (radians) timepoint of the column, while the map is
keyed by the raw integer timepoint. -/
def pyWeights (row : Row) : List PyFloat :=
  let vs := calculate_variances row
  row.map (fun c =>
    let w := match varLookup vs (tScale c.1.zt) with
      | some v => if pyTruthy v then pyRecip v else .fin 0
      | none => .fin 0
    pyAdd w (.fin (1 / 1000000)))

/-- The `sigma=weights` argument of the harmonic `curve_fit` call (line 133). -/
def harmonicSigma (row : Row) : List PyFloat := pyWeights row

/-- The `sigma=weights` argument of the square-wave `curve_fit` call (line 158). -/
def squareSigma (row : Row) : List PyFloat := pyWeights row

/-- The `sigma=weights` argument of the cycloid `curve_fit` call (line 183). -/
def cycloidSigma (row : Row) : List PyFloat := pyWeights row

/-- The `sigma=weights` argument of the transient `curve_fit` call (line 210). -/
def transientSigma (row : Row) : List PyFloat := pyWeights row

/-- Modelled from the spec: "Weighted residuals use `1/weight` as the
per-point uncertainty supplied to the solver."  The element-wise reciprocal
of the weight array, for refinement comparison with the `sigma` the code
actually supplies. -/
def specSigma (row : Row) : List PyFloat := (pyWeights row).map pyRecip

/-- The outcome of one external `curve_fit` call together with the
evaluation of the model function at the timepoints: either the solver
returns a parameter vector and the fitted values (transcendental
real-number computations, hence oracle data here), or it raises
(non-convergence, numerical error). -/
inductive FitOutcome where
  | success (ps : List ℚ) (cov : List (List ℚ)) (fv : List ℚ)
  | failure
deriving DecidableEq

/-- What `fit_best_waveform` records for one model: the parameter vector
and the covariance matrix (`none` models the `np.nan` marker set on
failure), the fitted-value sequence and the SSE. -/
structure ModelFit where
  params : Option (List ℚ)
  cov : Option (List (List ℚ))
  fitted : List ℚ
  sse : PyFloat
deriving DecidableEq

/-- Line 139 etc.: `np.sum((amplitudes - fitted_values) ** 2)`. -/
def sseOf (amps fv : List ℚ) : ℚ := ((amps.zip fv).map (fun p => (p.1 - p.2) ^ 2)).sum

/-- One `try/except` block of `fit_best_waveform` (e.g. lines 127-144):
on success, record the parameters, fitted values and the SSE of the
residuals; on failure, `params = np.nan`, `fitted_values = [0] * len(df_row)`
and `sse = np.inf`. -/
def runModel (amps : List ℚ) : FitOutcome → ModelFit
  | .success ps cov fv => ⟨some ps, some cov, fv, .fin (sseOf amps fv)⟩
  | .failure => ⟨none, none, List.replicate amps.length 0, .inf⟩

/-- The recorded fit of model `i` (0 = harmonic, 1 = square, 2 = cycloid,
3 = transient) for one row, given the four solver outcomes. -/
def modelFitOf (row : Row) (o : Fin 4 → FitOutcome) (i : Fin 4) : ModelFit :=
  runModel (row.map (·.2)) (o i)

/-- Line 224: `sse_values = [harmonic_sse, square_sse, cycloid_sse,
transient_sse]`. -/
def sseList (row : Row) (o : Fin 4 → FitOutcome) : List PyFloat :=
  [(modelFitOf row o 0).sse, (modelFitOf row o 1).sse,
   (modelFitOf row o 2).sse, (modelFitOf row o 3).sse]

/-- The scanning loop inside `np.argmin`: keep the first minimum seen,
update only on a strictly smaller element. -/
def argminAux : List PyFloat → ℕ → ℕ → PyFloat → ℕ
  | [], _, bi, _ => bi
  | x :: xs, i, bi, bv => if pyLt x bv then argminAux xs (i + 1) i x else argminAux xs (i + 1) bi bv

/-- Model of `np.argmin`: the index of the first minimum of the list. -/
def npArgmin : List PyFloat → ℕ
  | [] => 0
  | x :: xs => argminAux xs 1 0 x

/-- Line 225: `best_fit_index = np.argmin(sse_values)`. -/
def bestIdx (row : Row) (o : Fin 4 → FitOutcome) : ℕ := npArgmin (sseList row o)

/-- Lines 223-247 of `fit_best_waveform`: select by `np.argmin` over the
four SSEs, then the `if`/`elif`/`else` chain maps the index to the waveform
name and the recorded fit. -/
def fit_best_waveform (row : Row) (o : Fin 4 → FitOutcome) : String × ModelFit :=
  if bestIdx row o = 0 then ("harmonic_oscillator", modelFitOf row o 0)
  else if bestIdx row o = 1 then ("square_waveform", modelFitOf row o 1)
  else if bestIdx row o = 2 then ("cycloid", modelFitOf row o 2)
  else ("transient", modelFitOf row o 3)

/-- Lines 250-264, `categorize_rhythm`, with Python chained-comparison
semantics (`0.15 >= gamma >= 0.03` is a conjunction, and every comparison
with `nan` is false). -/
def categorize_rhythm (gamma : PyFloat) : String :=
  if pyLe gamma (.fin (3 / 20)) && pyLe (.fin (3 / 100)) gamma then "damped"
  else if pyLe (.fin (-(3 / 20))) gamma && pyLe gamma (.fin (-(3 / 100))) then "forced"
  else if pyLe (.fin (-(3 / 100))) gamma && pyLe gamma (.fin (3 / 100)) then "harmonic"
  else if pyLt (.fin (3 / 20)) gamma then "overexpressed" else "repressed"

/-- The three external statistical collaborators of `get_pycycle`, as
oracles: `fitO i j` is the outcome of the `j`-th `curve_fit` call on the
`i`-th feature; `kendall fitted observed` is the p-value returned by
`scipy.stats.kendalltau`; `correct` is the corrected p-value vector of
`statsmodels.multipletests(..., method='fdr_tsbh')[1]`. -/
structure Oracles where
  fitO : ℕ → Fin 4 → FitOutcome
  kendall : List ℚ → List ℚ → PyFloat
  correct : List PyFloat → List PyFloat

/-- Line 278, `params[1]` on the stored parameter object: the damping coefficient γ
when a parameter vector of length at least 2 is present.  When the stored
object is the scalar `np.nan` (all-fail case) the real script would raise
on the subscript, but that branch is unreachable: it presupposes
`p_value < 0.05`, and the p-value of the all-zero fallback fit against any
data is `nan`; `nan` is used as the placeholder here. -/
def gammaOf : Option (List ℚ) → PyFloat
  | some ps =>
    match ps.get? 1 with
    | some g => .fin g
    | none => .nan
  | none => .nan

/-- Lines 276-282: the category assigned to one feature — gated on the raw
Kendall p-value being strictly below 0.05, then either the γ-classifier (if
the harmonic oscillator won) or the waveform's own name; `none` models the
`np.nan` "no call" marker. -/
def oscFor (w : String) (ps : Option (List ℚ)) (p : PyFloat) : Option String :=
  if pyLt p (.fin (1 / 20)) then
    some (if w = "harmonic_oscillator" then categorize_rhythm (gammaOf ps) else w)
  else none

/-- The per-feature accumulator entries of the `get_pycycle` loop
(lines 273-285): feature identifier, raw p-value, category, parameters. -/
structure PreRow where
  feature : String
  pval : PyFloat
  otype : Option String
  params : Option (List ℚ)
deriving DecidableEq

/-- One row of the assembled output table (line 288): feature identifier,
raw p-value, corrected p-value, category, parameters. -/
structure OutRow where
  feature : String
  pval : PyFloat
  corrP : PyFloat
  otype : Option String
  params : Option (List ℚ)
deriving DecidableEq

/-- One iteration of the `get_pycycle` loop for feature index `i`:
fit all four models, select the best, compute the Kendall p-value between
the winning fitted sequence and the observed values, and gate the category. -/
def featurePre (O : Oracles) (i : ℕ) (f : String × Row) : PreRow :=
  let wm := fit_best_waveform f.2 (O.fitO i)
  let p := O.kendall wm.2.fitted (f.2.map (·.2))
  ⟨f.1, p, oscFor wm.1 wm.2.params p, wm.2.params⟩

/-- The whole loop `for i in range(df.shape[0])`, accumulating one entry
per feature in input order. -/
def pycyclePre (O : Oracles) : ℕ → List (String × Row) → List PreRow
  | _, [] => []
  | i, f :: fs => featurePre O i f :: pycyclePre O (i + 1) fs

/-- Lines 287-288: correct the collected p-values in bulk and assemble the
output table `{"Feature", "p-val", "corr p-val", "Type", "parameters"}`,
one row per feature, still in input order (before the final sorts). -/
def pycycleUnsorted (O : Oracles) (rows : List (String × Row)) : List OutRow :=
  let pres := pycyclePre O 0 rows
  List.zipWith (fun pr c => ⟨pr.feature, pr.pval, c, pr.otype, pr.params⟩)
    pres (O.correct (pres.map (·.pval)))

/-- The key order `pandas.sort_values` establishes on a column: ascending
on numbers, `inf` after every finite value, and `NaN` keys placed last
(`na_position='last'`). -/
def pyKeyLe : PyFloat → PyFloat → Bool
  | .fin a, .fin b => decide (a ≤ b)
  | .fin _, _ => true
  | .inf, .fin _ => false
  | .inf, _ => true
  | .nan, .nan => true
  | .nan, _ => false

/-- Adjacent-pairs check that a result list is ordered by the given key. -/
def sortedByB (k : OutRow → PyFloat) : List OutRow → Bool
  | [] => true
  | [_] => true
  | a :: b :: t => pyKeyLe (k a) (k b) && sortedByB k (b :: t)

/-- The contract of one `sort_values(by=key)` call: some permutation of the
input rows that is ordered by the key.  (The default `kind='quicksort'` is
not stable, so no more than this is guaranteed.) -/
def SortOutcome (k : OutRow → PyFloat) (l out : List OutRow) : Prop :=
  l.Perm out ∧ sortedByB k out = true

/-- Line 289: `df_out.sort_values(by='p-val').sort_values(by='corr p-val')`
— the relation between the input table and a possible output table of
`get_pycycle`. -/
def get_pycycle_rel (O : Oracles) (rows : List (String × Row)) (out : List OutRow) : Prop :=
  ∃ mid, SortOutcome (·.pval) (pycycleUnsorted O rows) mid ∧
    SortOutcome (·.corrP) mid out

/-- A feature row with two replicate columns at raw timepoint 4. -/
def rowZT4 : Row := [(⟨4, 1⟩, 1), (⟨4, 2⟩, 3)]

/-- A feature row with a single replicate column at raw timepoint 0. -/
def rowZT0single : Row := [(⟨0, 1⟩, 5)]

/-- A feature row with two replicate columns at raw timepoint 0. -/
def rowZT0pair : Row := [(⟨0, 1⟩, 1), (⟨0, 2⟩, 3)]

/-- A two-column feature row used by the concrete fit instances. -/
def rowTwoPts : Row := [(⟨0, 1⟩, 1), (⟨12, 1⟩, 2)]

/-- The solver outcome family in which every `curve_fit` call raises. -/
def oracleAllFail : Fin 4 → FitOutcome := fun _ => .failure

/-- An outcome family in which the harmonic fit raises and the other three
succeed with distinct residuals. -/
def oracleMixed : Fin 4 → FitOutcome := fun i =>
  if i = 0 then .failure
  else if i = 1 then .success [2, 0, 1, 0, 2] [] [1, 2]
  else if i = 2 then .success [3, 0, 1, 0, 3] [] [0, 2]
  else .success [4, 0, 1, 0, 4] [] [0, 0]

/-- Pipeline oracles: every fit fails, `kendalltau` yields `nan` (as it
does against a constant fallback sequence), correction is the identity. -/
def oracleFailAll : Oracles := ⟨fun _ _ => .failure, fun _ _ => .nan, id⟩

/-- Pipeline oracles: every fit fails and `kendalltau` yields p = 0.1. -/
def oracleP01 : Oracles := ⟨fun _ _ => .failure, fun _ _ => .fin (1 / 10), id⟩

/-- Pipeline oracles: every fit succeeds with γ = 0 and a perfect fit, and
`kendalltau` yields p = 0.01. -/
def oracleGood : Oracles :=
  ⟨fun _ _ => .success [1, 0, 1, 0, 1] [] [1, 2], fun _ _ => .fin (1 / 100), id⟩

/-- A two-feature input table. -/
def rowsTwo : List (String × Row) := [("a", rowZT0pair), ("b", rowZT4)]

/-- A one-feature input table. -/
def rowsOne : List (String × Row) := [("g", rowTwoPts)]

/-- The output row produced for feature "a" of `rowsTwo` under `oracleP01`. -/
def outP01 : OutRow := ⟨"a", .fin (1 / 10), .fin (1 / 10), none, none⟩

/-- The output row produced for feature "g" of `rowsOne` under `oracleGood`. -/
def outGood : OutRow :=
  ⟨"g", .fin (1 / 100), .fin (1 / 100), some "harmonic", some [1, 0, 1, 0, 1]⟩

/-! ## Helper lemmas about the Python order -/

theorem bool_of_not_true {b : Bool} (h : ¬ b = true) : b = false := by
  cases b <;> simp_all

theorem pyLt_then_le {x y : PyFloat} (h : pyLt x y = true) : pyLe x y = true := by
  cases x <;> cases y <;> simp_all [pyLt, pyLe] <;> linarith

theorem pyNotLt_le {x y : PyFloat} (hx : x ≠ .nan) (hy : y ≠ .nan)
    (h : pyLt x y = false) : pyLe y x = true := by
  cases x <;> cases y <;> simp_all [pyLt, pyLe] <;> linarith

theorem pyLe_trans' {x y z : PyFloat} (h1 : pyLe x y = true) (h2 : pyLe y z = true) :
    pyLe x z = true := by
  cases x <;> cases y <;> cases z <;> simp_all [pyLe] <;> linarith

theorem pyLt_le_trans {x y z : PyFloat} (h1 : pyLt x y = true) (h2 : pyLe y z = true) :
    pyLt x z = true := by
  cases x <;> cases y <;> cases z <;> simp_all [pyLt, pyLe] <;> linarith

theorem pyLe_rfl {x : PyFloat} (h : x ≠ .nan) : pyLe x x = true := by
  cases x <;> simp_all [pyLe]

theorem pyLe_not_lt {x y : PyFloat} (h : pyLe x y = true) : pyLt y x = false := by
  cases x <;> cases y <;> simp_all [pyLe, pyLt] <;> linarith

/-! ## Claims C1, C2, C3: the weight construction -/

/-- C1: evaluation of the weight construction at the failing input
`rowZT4` (two replicates at raw timepoint 4 with sample variance 2).  The
Variance Map does record the nonzero variance 2 at raw key 4, yet both
columns receive weight `0 + 1e-6`, not `1/2 + 1e-6` as the claim states:
the dictionary is probed with the rescaled timepoint `4/24·2π ≈ 1.047`,
which matches no raw key. -/
theorem c1_code_eval :
    calculate_variances rowZT4 = [(4, .fin 2)] ∧
    varLookup (calculate_variances rowZT4) (tScale 4) = none ∧
    pyWeights rowZT4 = [.fin (1 / 1000000), .fin (1 / 1000000)] := by
  refine ⟨?_, ?_, ?_⟩ <;>
    norm_num [calculate_variances, rowZT4, npUnique, insOrd, groupValues,
      sampleVariance, pyTruthy, varLookup, pyWeights, tScale, mathPi, pyAdd, pyRecip]

/-- C3: evaluation of `calculate_variances` and the weights at the failing
input `rowZT0single` (one replicate at timepoint 0).  The `ddof=1` variance
of the singleton group is NaN, `bool(nan)` is true, so the `else 0` branch
never fires: the Variance Map records NaN, and the NaN propagates through
`1/variances[0.0] + 1e-6` into the weight of the column. -/
theorem c3_code_eval :
    calculate_variances rowZT0single = [(0, .nan)] ∧
    pyWeights rowZT0single = [.nan] := by
  refine ⟨?_, ?_⟩ <;>
    norm_num [calculate_variances, rowZT0single, npUnique, insOrd, groupValues,
      sampleVariance, pyTruthy, varLookup, pyWeights, tScale, mathPi, pyAdd, pyRecip]

/-- C2, counterexample: at `rowZT0pair` the per-point uncertainty the code
supplies to the solver (`sigma=weights`, the weight array itself) differs
from the element-wise reciprocal `1/weight` the claim describes. -/
theorem c2_counterexample : harmonicSigma rowZT0pair ≠ specSigma rowZT0pair := by
  norm_num [harmonicSigma, specSigma, pyWeights, calculate_variances, rowZT0pair,
    npUnique, insOrd, groupValues, sampleVariance, pyTruthy, varLookup, tScale,
    mathPi, pyAdd, pyRecip]

/-- C2, amended: every one of the four `curve_fit` invocations supplies the
weight array itself as the per-point uncertainty `sigma` — not its
reciprocal — so a larger weight means a larger assumed uncertainty and less
influence on the fit. -/
theorem c2_amended (row : Row) :
    harmonicSigma row = pyWeights row ∧
    squareSigma row = pyWeights row ∧
    cycloidSigma row = pyWeights row ∧
    transientSigma row = pyWeights row :=
  ⟨rfl, rfl, rfl, rfl⟩

/-! ## The argmin selection -/

/-- The model of `np.argmin` on a four-element list without NaN entries returns an index
below 4 that attains the minimum, and every earlier index holds a strictly
greater value (first-minimum tie-breaking). -/
theorem argmin4_spec (a0 a1 a2 a3 : PyFloat)
    (h0 : a0 ≠ .nan) (h1 : a1 ≠ .nan) (h2 : a2 ≠ .nan) (h3 : a3 ≠ .nan) :
    npArgmin [a0, a1, a2, a3] < 4 ∧
    (∀ j : Fin 4,
      pyLe (List.getD [a0, a1, a2, a3] (npArgmin [a0, a1, a2, a3]) .nan)
        (List.getD [a0, a1, a2, a3] (j : ℕ) .nan) = true) ∧
    (∀ j : Fin 4, (j : ℕ) < npArgmin [a0, a1, a2, a3] →
      pyLt (List.getD [a0, a1, a2, a3] (npArgmin [a0, a1, a2, a3]) .nan)
        (List.getD [a0, a1, a2, a3] (j : ℕ) .nan) = true) := by
  simp only [npArgmin, argminAux]
  by_cases hA : pyLt a1 a0 = true
  · simp only [if_pos hA]
    by_cases hB : pyLt a2 a1 = true
    · simp only [if_pos hB]
      by_cases hC : pyLt a3 a2 = true
      · simp only [if_pos hC]
        refine ⟨by norm_num, ?_, ?_⟩
        · intro j
          fin_cases j
          · exact pyLt_then_le (pyLt_le_trans hC (pyLe_trans' (pyLt_then_le hB) (pyLt_then_le hA)))
          · exact pyLt_then_le (pyLt_le_trans hC (pyLt_then_le hB))
          · exact pyLt_then_le hC
          · exact pyLe_rfl h3
        · intro j hj
          fin_cases j
          · exact pyLt_le_trans hC (pyLe_trans' (pyLt_then_le hB) (pyLt_then_le hA))
          · exact pyLt_le_trans hC (pyLt_then_le hB)
          · exact hC
          · exact absurd hj (by decide)
      · simp only [if_neg hC]
        have hC' : pyLe a2 a3 = true := pyNotLt_le h3 h2 (bool_of_not_true hC)
        refine ⟨by norm_num, ?_, ?_⟩
        · intro j
          fin_cases j
          · exact pyLt_then_le (pyLt_le_trans hB (pyLt_then_le hA))
          · exact pyLt_then_le hB
          · exact pyLe_rfl h2
          · exact hC'
        · intro j hj
          fin_cases j
          · exact pyLt_le_trans hB (pyLt_then_le hA)
          · exact hB
          · exact absurd hj (by decide)
          · exact absurd hj (by decide)
    · simp only [if_neg hB]
      have hB' : pyLe a1 a2 = true := pyNotLt_le h2 h1 (bool_of_not_true hB)
      by_cases hC : pyLt a3 a1 = true
      · simp only [if_pos hC]
        refine ⟨by norm_num, ?_, ?_⟩
        · intro j
          fin_cases j
          · exact pyLt_then_le (pyLt_le_trans hC (pyLt_then_le hA))
          · exact pyLt_then_le hC
          · exact pyLe_trans' (pyLt_then_le hC) hB'
          · exact pyLe_rfl h3
        · intro j hj
          fin_cases j
          · exact pyLt_le_trans hC (pyLt_then_le hA)
          · exact hC
          · exact pyLt_le_trans hC hB'
          · exact absurd hj (by decide)
      · simp only [if_neg hC]
        have hC' : pyLe a1 a3 = true := pyNotLt_le h3 h1 (bool_of_not_true hC)
        refine ⟨by norm_num, ?_, ?_⟩
        · intro j
          fin_cases j
          · exact pyLt_then_le hA
          · exact pyLe_rfl h1
          · exact hB'
          · exact hC'
        · intro j hj
          fin_cases j
          · exact hA
          · exact absurd hj (by decide)
          · exact absurd hj (by decide)
          · exact absurd hj (by decide)
  · simp only [if_neg hA]
    have hA' : pyLe a0 a1 = true := pyNotLt_le h1 h0 (bool_of_not_true hA)
    by_cases hB : pyLt a2 a0 = true
    · simp only [if_pos hB]
      by_cases hC : pyLt a3 a2 = true
      · simp only [if_pos hC]
        refine ⟨by norm_num, ?_, ?_⟩
        · intro j
          fin_cases j
          · exact pyLt_then_le (pyLt_le_trans hC (pyLt_then_le hB))
          · exact pyLe_trans' (pyLt_then_le (pyLt_le_trans hC (pyLt_then_le hB))) hA'
          · exact pyLt_then_le hC
          · exact pyLe_rfl h3
        · intro j hj
          fin_cases j
          · exact pyLt_le_trans hC (pyLt_then_le hB)
          · exact pyLt_le_trans (pyLt_le_trans hC (pyLt_then_le hB)) hA'
          · exact hC
          · exact absurd hj (by decide)
      · simp only [if_neg hC]
        have hC' : pyLe a2 a3 = true := pyNotLt_le h3 h2 (bool_of_not_true hC)
        refine ⟨by norm_num, ?_, ?_⟩
        · intro j
          fin_cases j
          · exact pyLt_then_le hB
          · exact pyLe_trans' (pyLt_then_le hB) hA'
          · exact pyLe_rfl h2
          · exact hC'
        · intro j hj
          fin_cases j
          · exact hB
          · exact pyLt_le_trans hB hA'
          · exact absurd hj (by decide)
          · exact absurd hj (by decide)
    · simp only [if_neg hB]
      have hB' : pyLe a0 a2 = true := pyNotLt_le h2 h0 (bool_of_not_true hB)
      by_cases hC : pyLt a3 a0 = true
      · simp only [if_pos hC]
        refine ⟨by norm_num, ?_, ?_⟩
        · intro j
          fin_cases j
          · exact pyLt_then_le hC
          · exact pyLe_trans' (pyLt_then_le hC) hA'
          · exact pyLe_trans' (pyLt_then_le hC) hB'
          · exact pyLe_rfl h3
        · intro j hj
          fin_cases j
          · exact hC
          · exact pyLt_le_trans hC hA'
          · exact pyLt_le_trans hC hB'
          · exact absurd hj (by decide)
      · simp only [if_neg hC]
        have hC' : pyLe a0 a3 = true := pyNotLt_le h3 h0 (bool_of_not_true hC)
        refine ⟨by norm_num, ?_, ?_⟩
        · intro j
          fin_cases j
          · exact pyLe_rfl h0
          · exact hA'
          · exact hB'
          · exact hC'
        · intro j hj
          exact absurd hj (Nat.not_lt_zero _)

theorem sse_ne_nan (amps : List ℚ) (oc : FitOutcome) : (runModel amps oc).sse ≠ .nan := by
  cases oc <;> simp [runModel]

theorem sseList_getD (row : Row) (o : Fin 4 → FitOutcome) (j : Fin 4) :
    (sseList row o).getD (j : ℕ) .nan = (modelFitOf row o j).sse := by
  fin_cases j <;> rfl

theorem bestIdx_lt4 (row : Row) (o : Fin 4 → FitOutcome) : bestIdx row o < 4 :=
  (argmin4_spec _ _ _ _ (sse_ne_nan _ _) (sse_ne_nan _ _) (sse_ne_nan _ _)
    (sse_ne_nan _ _)).1

theorem selected_fit (row : Row) (o : Fin 4 → FitOutcome) :
    ∃ i : Fin 4, (i : ℕ) = bestIdx row o ∧
      (fit_best_waveform row o).2 = modelFitOf row o i := by
  have h4 := bestIdx_lt4 row o
  have h : bestIdx row o = 0 ∨ bestIdx row o = 1 ∨ bestIdx row o = 2 ∨
      bestIdx row o = 3 := by omega
  unfold fit_best_waveform
  rcases h with h | h | h | h <;> rw [h] <;> norm_num
  · exact ⟨0, rfl, rfl⟩
  · exact ⟨1, rfl, rfl⟩
  · exact ⟨2, rfl, rfl⟩
  · exact ⟨3, rfl, rfl⟩

theorem selected_sse (row : Row) (o : Fin 4 → FitOutcome) :
    (fit_best_waveform row o).2.sse = (sseList row o).getD (bestIdx row o) .nan := by
  obtain ⟨i, hi, he⟩ := selected_fit row o
  rw [he, ← hi, sseList_getD]

theorem pycyclePre_length (O : Oracles) :
    ∀ (i : ℕ) (rows : List (String × Row)), (pycyclePre O i rows).length = rows.length := by
  intro i rows
  induction rows generalizing i with
  | nil => rfl
  | cons f fs ih => simp [pycyclePre, ih]

theorem pycycleUnsorted_length (O : Oracles) (rows : List (String × Row))
    (hc : ∀ l, (O.correct l).length = l.length) :
    (pycycleUnsorted O rows).length = rows.length := by
  simp [pycycleUnsorted, List.length_zipWith, hc, List.length_map, pycyclePre_length]

/-! ## Claims C4 and C7: best-fit selection and the failure fallback -/

theorem selection_le (row : Row) (o : Fin 4 → FitOutcome) (j : Fin 4) :
    pyLe ((fit_best_waveform row o).2.sse) ((modelFitOf row o j).sse) = true := by
  have spec := argmin4_spec (modelFitOf row o 0).sse (modelFitOf row o 1).sse
    (modelFitOf row o 2).sse (modelFitOf row o 3).sse
    (sse_ne_nan _ _) (sse_ne_nan _ _) (sse_ne_nan _ _) (sse_ne_nan _ _)
  have h := spec.2.1 j
  rw [selected_sse, ← sseList_getD row o j]
  exact h

theorem selected_name (row : Row) (o : Fin 4 → FitOutcome) :
    (fit_best_waveform row o).1 =
      ["harmonic_oscillator", "square_waveform", "cycloid",
        "transient"].getD (bestIdx row o) "" := by
  have h4 := bestIdx_lt4 row o
  have h : bestIdx row o = 0 ∨ bestIdx row o = 1 ∨ bestIdx row o = 2 ∨
      bestIdx row o = 3 := by omega
  rcases h with h | h | h | h <;> simp [fit_best_waveform, h]

/-- C4: the selected model attains the minimum SSE of the four candidates
(in the fixed order harmonic, square, cycloid, transient), every model
enumerated before the selected one has a strictly greater SSE (argmin
first-minimum tie-breaking), the reported waveform name is the one at the
argmin position of the enumeration, when all four fits fail the harmonic
oscillator is selected, and the feature still receives exactly one result
row in the output table. -/
theorem c4_selection (row : Row) (o : Fin 4 → FitOutcome) :
    (∀ j : Fin 4,
      pyLe ((fit_best_waveform row o).2.sse) ((modelFitOf row o j).sse) = true) ∧
    (∀ j : Fin 4, (j : ℕ) < bestIdx row o →
      pyLt ((fit_best_waveform row o).2.sse) ((modelFitOf row o j).sse) = true) ∧
    ((fit_best_waveform row o).1 =
      ["harmonic_oscillator", "square_waveform", "cycloid",
        "transient"].getD (bestIdx row o) "") ∧
    ((∀ i, o i = .failure) → (fit_best_waveform row o).1 = "harmonic_oscillator") ∧
    (∀ (O : Oracles) (rows : List (String × Row)),
      (∀ l, (O.correct l).length = l.length) →
      (pycycleUnsorted O rows).length = rows.length) := by
  have spec := argmin4_spec (modelFitOf row o 0).sse (modelFitOf row o 1).sse
    (modelFitOf row o 2).sse (modelFitOf row o 3).sse
    (sse_ne_nan _ _) (sse_ne_nan _ _) (sse_ne_nan _ _) (sse_ne_nan _ _)
  refine ⟨?_, ?_, ?_, ?_, ?_⟩
  · exact fun j => selection_le row o j
  · intro j hj
    have h := spec.2.2 j hj
    rw [selected_sse, ← sseList_getD row o j]
    exact h
  · exact selected_name row o
  · intro hfail
    have h0 : bestIdx row o = 0 := by
      simp [bestIdx, sseList, modelFitOf, hfail, runModel, npArgmin, argminAux, pyLt]
    simp [fit_best_waveform, h0]
  · intro O rows hc
    exact pycycleUnsorted_length O rows hc

/-- C4, witness: concrete instances of the selection properties — with all
four fits failed the harmonic oscillator is named; with the harmonic fit
failed and the square fit perfect, the selected SSE is strictly below the
harmonic one; the two-feature table yields two output rows. -/
theorem c4_selection_witness :
    pyLe ((fit_best_waveform rowTwoPts oracleAllFail).2.sse)
      ((modelFitOf rowTwoPts oracleAllFail 0).sse) = true ∧
    pyLt ((fit_best_waveform rowTwoPts oracleMixed).2.sse)
      ((modelFitOf rowTwoPts oracleMixed 0).sse) = true ∧
    (fit_best_waveform rowTwoPts oracleAllFail).1 = "harmonic_oscillator" ∧
    (pycycleUnsorted oracleFailAll rowsTwo).length = rowsTwo.length := by
  have m0 : oracleMixed 0 = .failure := rfl
  have m1 : oracleMixed 1 = .success [2, 0, 1, 0, 2] [] [1, 2] := rfl
  have m2 : oracleMixed 2 = .success [3, 0, 1, 0, 3] [] [0, 2] := rfl
  have m3 : oracleMixed 3 = .success [4, 0, 1, 0, 4] [] [0, 0] := rfl
  have hj : ((0 : Fin 4) : ℕ) < bestIdx rowTwoPts oracleMixed := by
    norm_num [bestIdx, sseList, modelFitOf, runModel, m0, m1, m2, m3, npArgmin,
      argminAux, pyLt, sseOf, rowTwoPts, List.zip, List.zipWith]
  exact ⟨(c4_selection rowTwoPts oracleAllFail).1 0,
    (c4_selection rowTwoPts oracleMixed).2.1 0 hj,
    (c4_selection rowTwoPts oracleAllFail).2.2.2.1 (fun _ => rfl),
    (c4_selection rowTwoPts oracleAllFail).2.2.2.2 oracleFailAll rowsTwo (fun _ => rfl)⟩

/-- C7, counterexample: when every fit fails, the failed harmonic
oscillator does NOT lose the best-fit comparison — it is selected (with its
fallback infinite SSE), so "that failed model loses the best-fit
comparison" is false as stated. -/
theorem c7_counterexample :
    oracleAllFail 0 = .failure ∧
    (fit_best_waveform rowTwoPts oracleAllFail).1 = "harmonic_oscillator" ∧
    (fit_best_waveform rowTwoPts oracleAllFail).2.sse = .inf := by
  refine ⟨rfl, ?_, ?_⟩ <;>
    simp [fit_best_waveform, bestIdx, sseList, modelFitOf, runModel, oracleAllFail,
      npArgmin, argminAux, pyLt]

/-- C7, amended: if a model's fit raises, its parameters and its covariance
are the undefined marker, its fitted sequence is a zero vector of the row's
length and its SSE is `+∞` (and the pipeline continues, these being
ordinary values); such a model loses the best-fit comparison to every model
whose fit succeeded — whenever at least one model succeeds, the selected
fit has real parameters and a finite SSE.  (Only when all four fail is a
failed model — the first-enumerated one — selected.) -/
theorem c7_amended (row : Row) (o : Fin 4 → FitOutcome) (i : Fin 4) :
    (o i = .failure →
      (modelFitOf row o i).params = none ∧
      (modelFitOf row o i).cov = none ∧
      (modelFitOf row o i).fitted = List.replicate row.length 0 ∧
      (modelFitOf row o i).sse = .inf) ∧
    (o i ≠ .failure →
      (fit_best_waveform row o).2.params ≠ none ∧
      (fit_best_waveform row o).2.sse ≠ .inf) := by
  constructor
  · intro hf
    simp [modelFitOf, hf, runModel]
  · intro hs
    obtain ⟨ps, cov, fv, hps⟩ : ∃ ps cov fv, o i = .success ps cov fv := by
      cases h : o i with
      | success ps cov fv => exact ⟨ps, cov, fv, rfl⟩
      | failure => exact absurd h hs
    have hle := selection_le row o i
    have hfin : (modelFitOf row o i).sse = .fin (sseOf (row.map (·.2)) fv) := by
      simp [modelFitOf, hps, runModel]
    rw [hfin] at hle
    have hnotinf : (fit_best_waveform row o).2.sse ≠ .inf := by
      intro he
      rw [he] at hle
      simp [pyLe] at hle
    obtain ⟨k, _, hk⟩ := selected_fit row o
    refine ⟨?_, hnotinf⟩
    rw [hk]
    rw [hk] at hnotinf
    cases h : o k with
    | success ps' cov' fv' => simp [modelFitOf, h, runModel]
    | failure => exact absurd (by simp [modelFitOf, h, runModel]) hnotinf

/-- C7, witness: under `oracleMixed` (harmonic raises, the rest converge)
the harmonic entry carries the documented fallback values, and the selected
fit has real parameters and a finite SSE. -/
theorem c7_amended_witness :
    ((modelFitOf rowTwoPts oracleMixed 0).params = none ∧
     (modelFitOf rowTwoPts oracleMixed 0).cov = none ∧
     (modelFitOf rowTwoPts oracleMixed 0).fitted = List.replicate rowTwoPts.length 0 ∧
     (modelFitOf rowTwoPts oracleMixed 0).sse = .inf) ∧
    ((fit_best_waveform rowTwoPts oracleMixed).2.params ≠ none ∧
     (fit_best_waveform rowTwoPts oracleMixed).2.sse ≠ .inf) :=
  ⟨(c7_amended rowTwoPts oracleMixed 0).1 rfl,
   (c7_amended rowTwoPts oracleMixed 1).2 (by decide)⟩

/-! ## Claims C5 and C10: the γ classifier -/

theorem categorize_fin (q : ℚ) :
    categorize_rhythm (.fin q) =
      if q ≤ 3 / 20 ∧ 3 / 100 ≤ q then "damped"
      else if -(3 / 20) ≤ q ∧ q ≤ -(3 / 100) then "forced"
      else if -(3 / 100) ≤ q ∧ q ≤ 3 / 100 then "harmonic"
      else if 3 / 20 < q then "overexpressed" else "repressed" := by
  simp [categorize_rhythm, pyLe, pyLt]

/-- C5: the classifier boundaries — `damped` on the closed interval
[0.03, 0.15], `forced` on [−0.15, −0.03], `harmonic` strictly inside
(−0.03, 0.03), `overexpressed` above 0.15, `repressed` below −0.15; in
particular γ = 0.029999 is `harmonic` and γ = 0.1500001 is
`overexpressed`, symmetrically for the negated values. -/
theorem c5_classifier :
    (∀ q : ℚ,
      ((3 / 100 ≤ q ∧ q ≤ 3 / 20) → categorize_rhythm (.fin q) = "damped") ∧
      ((-(3 / 20) ≤ q ∧ q ≤ -(3 / 100)) → categorize_rhythm (.fin q) = "forced") ∧
      ((-(3 / 100) < q ∧ q < 3 / 100) → categorize_rhythm (.fin q) = "harmonic") ∧
      (3 / 20 < q → categorize_rhythm (.fin q) = "overexpressed") ∧
      (q < -(3 / 20) → categorize_rhythm (.fin q) = "repressed")) ∧
    categorize_rhythm (.fin (29999 / 1000000)) = "harmonic" ∧
    categorize_rhythm (.fin (1500001 / 10000000)) = "overexpressed" ∧
    categorize_rhythm (.fin (-(29999 / 1000000))) = "harmonic" ∧
    categorize_rhythm (.fin (-(1500001 / 10000000))) = "repressed" := by
  have key : ∀ q : ℚ,
      ((3 / 100 ≤ q ∧ q ≤ 3 / 20) → categorize_rhythm (.fin q) = "damped") ∧
      ((-(3 / 20) ≤ q ∧ q ≤ -(3 / 100)) → categorize_rhythm (.fin q) = "forced") ∧
      ((-(3 / 100) < q ∧ q < 3 / 100) → categorize_rhythm (.fin q) = "harmonic") ∧
      (3 / 20 < q → categorize_rhythm (.fin q) = "overexpressed") ∧
      (q < -(3 / 20) → categorize_rhythm (.fin q) = "repressed") := by
    intro q
    refine ⟨fun h => ?_, fun h => ?_, fun h => ?_, fun h => ?_, fun h => ?_⟩
    · rw [categorize_fin, if_pos ⟨h.2, h.1⟩]
    · have n1 : ¬(q ≤ 3 / 20 ∧ 3 / 100 ≤ q) := by rintro ⟨a, b⟩; linarith
      rw [categorize_fin, if_neg n1, if_pos ⟨h.1, h.2⟩]
    · have n1 : ¬(q ≤ 3 / 20 ∧ 3 / 100 ≤ q) := by rintro ⟨a, b⟩; linarith
      have n2 : ¬(-(3 / 20) ≤ q ∧ q ≤ -(3 / 100)) := by rintro ⟨a, b⟩; linarith
      rw [categorize_fin, if_neg n1, if_neg n2, if_pos ⟨le_of_lt h.1, le_of_lt h.2⟩]
    · have n1 : ¬(q ≤ 3 / 20 ∧ 3 / 100 ≤ q) := by rintro ⟨a, b⟩; linarith
      have n2 : ¬(-(3 / 20) ≤ q ∧ q ≤ -(3 / 100)) := by rintro ⟨a, b⟩; linarith
      have n3 : ¬(-(3 / 100) ≤ q ∧ q ≤ 3 / 100) := by rintro ⟨a, b⟩; linarith
      rw [categorize_fin, if_neg n1, if_neg n2, if_neg n3, if_pos h]
    · have n1 : ¬(q ≤ 3 / 20 ∧ 3 / 100 ≤ q) := by rintro ⟨a, b⟩; linarith
      have n2 : ¬(-(3 / 20) ≤ q ∧ q ≤ -(3 / 100)) := by rintro ⟨a, b⟩; linarith
      have n3 : ¬(-(3 / 100) ≤ q ∧ q ≤ 3 / 100) := by rintro ⟨a, b⟩; linarith
      have n4 : ¬(3 / 20 < q) := by linarith
      rw [categorize_fin, if_neg n1, if_neg n2, if_neg n3, if_neg n4]
  refine ⟨key, ?_, ?_, ?_, ?_⟩
  · exact (key _).2.2.1 (by norm_num)
  · exact (key _).2.2.2.1 (by norm_num)
  · exact (key _).2.2.1 (by norm_num)
  · exact (key _).2.2.2.2 (by norm_num)

/-- C5, witness: the classifier theorem applied at γ = 0.1 (inside the
damped band). -/
theorem c5_classifier_witness : categorize_rhythm (.fin (1 / 10)) = "damped" :=
  (c5_classifier.1 (1 / 10)).1 (by norm_num)

/-- C10: `categorize_rhythm` is total — it always returns one of the five
labels — and on the `nan` marker (the parameter value after an all-fail
row) every range comparison is false, so it returns `repressed`. -/
theorem c10_total (g : PyFloat) :
    (categorize_rhythm g = "damped" ∨ categorize_rhythm g = "forced" ∨
     categorize_rhythm g = "harmonic" ∨ categorize_rhythm g = "overexpressed" ∨
     categorize_rhythm g = "repressed") ∧
    categorize_rhythm .nan = "repressed" := by
  constructor
  · unfold categorize_rhythm
    split_ifs <;> simp
  · rfl

/-! ## Claims C6 and C9: significance gating and completeness -/

theorem mem_zipWith {α β γ : Type} {f : α → β → γ} {x : γ} :
    ∀ {as : List α} {bs : List β}, x ∈ List.zipWith f as bs →
      ∃ a b, a ∈ as ∧ b ∈ bs ∧ x = f a b := by
  intro as
  induction as with
  | nil => intro bs h; simp [List.zipWith] at h
  | cons a as ih =>
    intro bs h
    cases bs with
    | nil => simp [List.zipWith] at h
    | cons b bs =>
      rcases List.mem_cons.mp h with h | h
      · exact ⟨a, b, List.mem_cons_self _ _, List.mem_cons_self _ _, h⟩
      · obtain ⟨a', b', ha, hb, he⟩ := ih h
        exact ⟨a', b', List.mem_cons_of_mem _ ha, List.mem_cons_of_mem _ hb, he⟩

theorem mem_pycyclePre (O : Oracles) (pr : PreRow) :
    ∀ (rows : List (String × Row)) (i : ℕ), pr ∈ pycyclePre O i rows →
      ∃ k f, f ∈ rows ∧ pr = featurePre O k f := by
  intro rows
  induction rows with
  | nil => intro i h; simp [pycyclePre] at h
  | cons f fs ih =>
    intro i h
    rcases List.mem_cons.mp h with h | h
    · exact ⟨i, f, List.mem_cons_self _ _, h⟩
    · obtain ⟨k, f', hf, he⟩ := ih (i + 1) h
      exact ⟨k, f', List.mem_cons_of_mem _ hf, he⟩

theorem oscFor_gate (w : String) (ps : Option (List ℚ)) (p : PyFloat) :
    (pyLe (.fin (1 / 20)) p = true → oscFor w ps p = none) ∧
    (oscFor w ps p ≠ none → pyLt p (.fin (1 / 20)) = true) := by
  constructor
  · intro h
    unfold oscFor
    rw [pyLe_not_lt h]
    rfl
  · intro h
    by_cases hp : pyLt p (.fin (1 / 20)) = true
    · exact hp
    · exact absurd (by unfold oscFor; rw [bool_of_not_true hp]; rfl) h

/-- C6: for every row of the assembled output table, a raw Kendall p-value
at or above 0.05 forces the "no call" marker (`np.nan`, modelled `none`) as
the category, regardless of waveform or γ, and conversely any row carrying
a category has a p-value strictly below 0.05. -/
theorem c6_gating (O : Oracles) (rows : List (String × Row)) (r : OutRow)
    (hr : r ∈ pycycleUnsorted O rows) :
    (pyLe (.fin (1 / 20)) r.pval = true → r.otype = none) ∧
    (r.otype ≠ none → pyLt r.pval (.fin (1 / 20)) = true) := by
  simp only [pycycleUnsorted] at hr
  obtain ⟨pr, c, hpr, _, he⟩ := mem_zipWith hr
  obtain ⟨k, f, _, hpe⟩ := mem_pycyclePre O pr rows 0 hpr
  subst he
  have hot : pr.otype = oscFor (fit_best_waveform f.2 (O.fitO k)).1
      (fit_best_waveform f.2 (O.fitO k)).2.params pr.pval := by
    rw [hpe]; rfl
  constructor
  · intro h
    show pr.otype = none
    rw [hot]
    exact (oscFor_gate _ _ _).1 h
  · intro h
    have h' : pr.otype ≠ none := h
    rw [hot] at h'
    exact (oscFor_gate _ _ _).2 h'

/-- C6, witness: the gating theorem applied to two concrete pipeline runs —
feature "a" with p = 0.1 is assigned no category, and feature "g" with a
category ("harmonic", p = 0.01) indeed has p strictly below 0.05. -/
theorem c6_gating_witness :
    outP01.otype = none ∧ pyLt outGood.pval (.fin (1 / 20)) = true := by
  have e1 : pycycleUnsorted oracleP01 rowsTwo =
      [outP01, ⟨"b", .fin (1 / 10), .fin (1 / 10), none, none⟩] := by
    norm_num [pycycleUnsorted, pycyclePre, featurePre, oracleP01, rowsTwo,
      rowZT0pair, rowZT4, fit_best_waveform, bestIdx, sseList, modelFitOf,
      runModel, npArgmin, argminAux, pyLt, oscFor, outP01, List.zipWith]
  have e2 : pycycleUnsorted oracleGood rowsOne = [outGood] := by
    norm_num [pycycleUnsorted, pycyclePre, featurePre, oracleGood, rowsOne,
      rowTwoPts, fit_best_waveform, bestIdx, sseList, modelFitOf, runModel,
      npArgmin, argminAux, pyLt, oscFor, outGood, List.zipWith, sseOf,
      List.zip, gammaOf, categorize_rhythm, pyLe]
  have h1 : outP01 ∈ pycycleUnsorted oracleP01 rowsTwo := by
    rw [e1]; exact List.mem_cons_self _ _
  have h2 : outGood ∈ pycycleUnsorted oracleGood rowsOne := by
    rw [e2]; exact List.mem_cons_self _ _
  refine ⟨(c6_gating oracleP01 rowsTwo outP01 h1).1 ?_,
    (c6_gating oracleGood rowsOne outGood h2).2 ?_⟩
  · show pyLe (.fin (1 / 20)) (.fin (1 / 10)) = true
    norm_num [pyLe]
  · show (some "harmonic" : Option String) ≠ none
    simp

theorem pycyclePre_features (O : Oracles) :
    ∀ (rows : List (String × Row)) (i : ℕ),
      (pycyclePre O i rows).map (·.feature) = rows.map (·.1) := by
  intro rows
  induction rows with
  | nil => intro i; rfl
  | cons f fs ih => intro i; simp only [pycyclePre, List.map]; rw [ih]; rfl

theorem map_zipWith_feature :
    ∀ (as : List PreRow) (bs : List PyFloat), bs.length = as.length →
      (List.zipWith (fun pr c =>
          (⟨pr.feature, pr.pval, c, pr.otype, pr.params⟩ : OutRow)) as bs).map
        (·.feature) = as.map (·.feature) := by
  intro as
  induction as with
  | nil => intro bs h; simp
  | cons a as ih =>
    intro bs h
    cases bs with
    | nil => simp at h
    | cons b bs =>
      simp only [List.zipWith, List.map]
      rw [ih bs (by simpa using h)]

theorem pycycleUnsorted_features (O : Oracles) (rows : List (String × Row))
    (hc : ∀ l, (O.correct l).length = l.length) :
    (pycycleUnsorted O rows).map (·.feature) = rows.map (·.1) := by
  unfold pycycleUnsorted
  rw [map_zipWith_feature _ _ (by simp [hc])]
  exact pycyclePre_features O rows 0

/-- C9: every possible output table of `get_pycycle` has exactly one row
per input feature row, and — when the input feature identifiers are
distinct, as identifiers are — every input identifier appears exactly once
in the output's Feature column. -/
theorem c9_completeness (O : Oracles) (rows : List (String × Row)) (out : List OutRow)
    (hc : ∀ l, (O.correct l).length = l.length)
    (hrel : get_pycycle_rel O rows out) :
    out.length = rows.length ∧
    ((rows.map (·.1)).Nodup →
      ∀ s ∈ rows.map (·.1), (out.map (·.feature)).count s = 1) := by
  obtain ⟨mid, ⟨hp1, _⟩, hp2, _⟩ := hrel
  have hperm : (pycycleUnsorted O rows).Perm out := hp1.trans hp2
  have hfeat : (out.map (·.feature)).Perm (rows.map (·.1)) := by
    have h := hperm.map (·.feature)
    rw [pycycleUnsorted_features O rows hc] at h
    exact h.symm
  constructor
  · rw [← hperm.length_eq, pycycleUnsorted_length O rows hc]
  · intro hnd s hs
    have hnd' : (out.map (·.feature)).Nodup := hfeat.nodup_iff.mpr hnd
    have hmem : s ∈ out.map (·.feature) := hfeat.mem_iff.mpr hs
    exact List.count_eq_one_of_mem hnd' hmem

/-- C9, witness: the completeness theorem applied to the two-feature table
under the all-fail oracles (taking the in-order table itself as the sort
outcome — both key columns are constant, so it is trivially sorted). -/
theorem c9_completeness_witness :
    (pycycleUnsorted oracleFailAll rowsTwo).length = rowsTwo.length ∧
    ((pycycleUnsorted oracleFailAll rowsTwo).map (·.feature)).count "a" = 1 := by
  have hsorted1 : sortedByB (·.pval) (pycycleUnsorted oracleFailAll rowsTwo) = true := by
    norm_num [pycycleUnsorted, pycyclePre, featurePre, oracleFailAll, rowsTwo,
      rowZT0pair, rowZT4, fit_best_waveform, bestIdx, sseList, modelFitOf,
      runModel, npArgmin, argminAux, pyLt, oscFor, List.zipWith, sortedByB, pyKeyLe]
  have hsorted2 : sortedByB (·.corrP) (pycycleUnsorted oracleFailAll rowsTwo) = true := by
    norm_num [pycycleUnsorted, pycyclePre, featurePre, oracleFailAll, rowsTwo,
      rowZT0pair, rowZT4, fit_best_waveform, bestIdx, sseList, modelFitOf,
      runModel, npArgmin, argminAux, pyLt, oscFor, List.zipWith, sortedByB, pyKeyLe]
  have hrel : get_pycycle_rel oracleFailAll rowsTwo (pycycleUnsorted oracleFailAll rowsTwo) :=
    ⟨pycycleUnsorted oracleFailAll rowsTwo, ⟨List.Perm.refl _, hsorted1⟩,
      List.Perm.refl _, hsorted2⟩
  have h := c9_completeness oracleFailAll rowsTwo _ (fun _ => rfl) hrel
  exact ⟨h.1, h.2 (by simp [rowsTwo]) "a" (by simp [rowsTwo])⟩
